import Mathlib

/-!
Verification of the rules/state engine of a two-player board game
(7 columns x 8 rows, five knight-moving "runner" pieces and one
queen-sliding "carrier"/ball per player), as implemented in `game.py`.

The board state is embedded as a `List Int` of length 12: entry `i` is the
linear square index of piece `i` (0-4 player0 runners, 5 player0 carrier,
6-10 player1 runners, 11 player1 carrier).  Python integers are modelled by
`Int`; Python `//` and `%` on nonnegative divisors coincide with `Int.ediv`
and `Int.emod`.
-/

namespace Game

/-- Source `BoardState.encode_single_pos`: a coordinate `(col, row)` maps to the
linear index `row * 7 + col` (`N_COLS = 7`). -/
def encode_single_pos (cr : Int × Int) : Int :=
  cr.2 * 7 + cr.1

/-- Source `BoardState.decode_single_pos`: a linear index `n` maps to
`(n % 7, n // 7)` with Python floor-division semantics. -/
def decode_single_pos (n : Int) : Int × Int :=
  (n % 7, n / 7)

/-- The fixed initial layout built by `BoardState.__init__`:
`[1, 2, 3, 4, 5, 3, 50, 51, 52, 53, 54, 52]`. -/
def initState : List Int :=
  [1, 2, 3, 4, 5, 3, 50, 51, 52, 53, 54, 52]

/-- Source `BoardState.make_state`: the decoded coordinate list mirroring the
encoded positions. -/
def make_state (s : List Int) : List (Int × Int) :=
  s.map decode_single_pos

/-- Source `BoardState.update`: write `val` at piece slot `idx` (the decoded cache
is derived, so updating the encoded entry keeps both in sync exactly as the
source updates both together). -/
def board_update (s : List Int) (idx : Nat) (val : Int) : List Int :=
  s.set idx val

/-- Source `BoardState.is_termination_state`: white (piece 5) ball on row 7, or
black (piece 11) ball on row 0. -/
def is_termination_state (s : List Int) : Bool :=
  if (decode_single_pos (s.getD 5 0)).2 == 7 then true
  else if (decode_single_pos (s.getD 11 0)).2 == 0 then true
  else false

/-- Source `BoardState.is_valid`: every position lies in `[0, 55]` and there are no
duplicates (the source compares `len(set(state))` with `len(state)`, which is
`dedup` length here).  The source's two early `return False` branches are the
two conjuncts. -/
def is_valid (s : List Int) : Bool :=
  (s.all fun p => decide (0 ≤ p ∧ p ≤ 55)) && (s.dedup.length == s.length)

/-- The eight knight-offset coordinates listed in
`Rules.single_piece_actions` (`possible_moves`). -/
def knight_targets (cr : Int × Int) : List (Int × Int) :=
  [(cr.1 + 2, cr.2 + 1), (cr.1 + 2, cr.2 - 1),
   (cr.1 - 2, cr.2 + 1), (cr.1 - 2, cr.2 - 1),
   (cr.1 + 1, cr.2 + 2), (cr.1 + 1, cr.2 - 2),
   (cr.1 - 1, cr.2 + 2), (cr.1 - 1, cr.2 - 2)]

/-- Source `Rules.single_piece_actions`: keep each knight target that is on the
board and whose encoding is not an occupied square. -/
def single_piece_actions (s : List Int) (piece_idx : Nat) : List Int :=
  (knight_targets (decode_single_pos (s.getD piece_idx 0))).filterMap fun m =>
    if 0 ≤ m.1 ∧ m.1 < 7 ∧ 0 ≤ m.2 ∧ m.2 < 8 then
      if encode_single_pos m ∈ s then none else some (encode_single_pos m)
    else none

/-- The eight queen directions listed in `Rules.single_ball_actions`. -/
def queen_directions : List (Int × Int) :=
  [(1, 0), (-1, 0), (0, 1), (0, -1), (1, 1), (1, -1), (-1, 1), (-1, -1)]

/-- The `while` loop body of `Rules.single_ball_actions` along one
direction: while the current square is on the board, break if it is occupied
by any piece, otherwise record it when it belongs to the mover's slice, then
step.  `fuel` dominates the loop's iteration count (a ray leaves the 7x8
board in at most 8 steps, and `BALL_FUEL = 16`). -/
def ray_scan (s slice : List Int) (d : Int × Int) : Int × Int → Nat → List Int
  | _, 0 => []
  | cur, fuel + 1 =>
    if 0 ≤ cur.1 ∧ cur.1 < 7 ∧ 0 ≤ cur.2 ∧ cur.2 < 8 then
      if encode_single_pos cur ∈ s then []
      else if encode_single_pos cur ∈ slice then
        encode_single_pos cur :: ray_scan s slice d (cur.1 + d.1, cur.2 + d.2) fuel
      else ray_scan s slice d (cur.1 + d.1, cur.2 + d.2) fuel
    else []

def BALL_FUEL : Nat := 16

/-- Source `Rules.single_ball_actions`: the ball index is 5 for player 0 and 11
otherwise; `slice` is `state[player_idx * 6 : (player_idx + 1) * 6]`; scan
each of the eight queen directions starting one step away from the ball. -/
def single_ball_actions (s : List Int) (player_idx : Nat) : List Int :=
  queen_directions.foldl
    (fun acc d =>
      acc ++ ray_scan s ((s.drop (player_idx * 6)).take 6) d
        ((decode_single_pos (s.getD (if player_idx == 0 then 5 else 11) 0)).1 + d.1,
         (decode_single_pos (s.getD (if player_idx == 0 then 5 else 11) 0)).2 + d.2)
        BALL_FUEL)
    []

/-- Source `GameSimulator.generate_valid_actions`: runner actions `(i, dest)` for
relative indices 0-4 plus ball actions `(5, dest)`. -/
def generate_valid_actions (s : List Int) (player_idx : Nat) : List (Nat × Int) :=
  ((List.range 5).foldl
    (fun acc i =>
      acc ++ (single_piece_actions s (player_idx * 6 + i)).map fun a => (i, a))
    [])
  ++ (single_ball_actions s player_idx).map fun a => (5, a)

/-- Source `GameSimulator.update`: write the destination at
`player_idx * 6 + relative_idx`. -/
def sim_update (s : List Int) (action : Nat × Int) (player_idx : Nat) : List Int :=
  board_update s (player_idx * 6 + action.1) action.2

/-- Source `GameSimulator.validate_action`: returns `True` when the action is in
the generated set and otherwise raises `ValueError` (modelled as
`Except.error`). -/
def validate_action (s : List Int) (action : Nat × Int) (player_idx : Nat) :
    Except String Bool :=
  if action ∈ generate_valid_actions s player_idx then Except.ok true
  else Except.error ("Invalid action")

/-- A policy collaborator: the decoded board snapshot maps to a proposed
`(action, value)` pair (`value` is the opaque diagnostic score). -/
def Policy : Type :=
  List (Int × Int) → (Nat × Int) × Int

/-- What `GameSimulator.run` can produce: a normal `(round, winner, reason)`
triple, or an uncaught Python exception escaping the call. -/
inductive RunOutcome where
  | finished (round : Int) (winner : String) (reason : String)
  | exn (msg : String)
deriving DecidableEq

/-- The `while` loop of `GameSimulator.run`, with a fuel bound (the source
has no iteration cap; `none` models a run still going after `fuel`
iterations).  Besides the outcome it returns the trace of executed turns as
`(round, player)` pairs.  Mirrors the source: the round counter starts at
`-1` and is incremented at the top of the body; the mover is
`current_round % 2`; a `False` result from `validate_action` would trigger
the forfeiture return, while its `ValueError` escapes; when the loop exits
on a terminal state the winner is taken from the parity of the last
executed round (if no round ever executed, reading `player_idx` raises
`NameError`). -/
def runLoop (p0 p1 : Policy) : Nat → List Int → Int → Option (RunOutcome × List (Int × Int))
  | 0, _, _ => none
  | fuel + 1, s, round =>
    if is_termination_state s then
      if 0 ≤ round then
        some (RunOutcome.finished round
          (if round % 2 == 0 then "WHITE" else "BLACK") ("No issues"), [])
      else
        some (RunOutcome.exn ("NameError"), [])
    else
      match validate_action s ((if (round + 1) % 2 == 0 then p0 else p1)
          (make_state s)).1 ((round + 1) % 2).toNat with
      | Except.error e => some (RunOutcome.exn e, [(round + 1, (round + 1) % 2)])
      | Except.ok ok =>
        if ok then
          match runLoop p0 p1 fuel
              (sim_update s ((if (round + 1) % 2 == 0 then p0 else p1)
                (make_state s)).1 ((round + 1) % 2).toNat) (round + 1) with
          | none => none
          | some (out, tr) => some (out, (round + 1, (round + 1) % 2) :: tr)
        else
          some (RunOutcome.finished (round + 1)
            (if (round + 1) % 2 == 0 then "BLACK" else "WHITE")
            (if (round + 1) % 2 == 0 then "White provided an invalid action"
             else "Black probided an invalid action"),
            [(round + 1, (round + 1) % 2)])

/-- Source `GameSimulator.run`: the loop started on the fresh board with the round
counter at `-1`. -/
def runSim (p0 p1 : Policy) (fuel : Nat) :
    Option (RunOutcome × List (Int × Int)) :=
  runLoop p0 p1 fuel initState (-1)

/-- A policy that always proposes the action `(0, 0)`. -/
def badPolicy : Policy :=
  fun _ => ((0, 0), 0)

/-- Modelled from the spec (for comparison with the code only): "a
destination is legal iff it is reachable by an unobstructed straight line
from the carrier's square and is occupied by a same-color runner".  A
destination is spec-legal when, along some queen direction, it lies `k ≥ 1`
in-bounds steps from the carrier, every strictly intermediate square is
unoccupied, and the destination square holds one of the mover's runners
(relative indices 0-4). -/
def spec_carrier_dest (s : List Int) (player_idx : Nat) (dest : Int) : Bool :=
  queen_directions.any fun d =>
    (List.range 8).any fun k0 =>
      decide (0 ≤ (decode_single_pos (s.getD (if player_idx == 0 then 5 else 11) 0)).1
               + (k0 + 1) * d.1) &&
      decide ((decode_single_pos (s.getD (if player_idx == 0 then 5 else 11) 0)).1
               + (k0 + 1) * d.1 < 7) &&
      decide (0 ≤ (decode_single_pos (s.getD (if player_idx == 0 then 5 else 11) 0)).2
               + (k0 + 1) * d.2) &&
      decide ((decode_single_pos (s.getD (if player_idx == 0 then 5 else 11) 0)).2
               + (k0 + 1) * d.2 < 8) &&
      (dest ==
        encode_single_pos
          ((decode_single_pos (s.getD (if player_idx == 0 then 5 else 11) 0)).1
             + (k0 + 1) * d.1,
           (decode_single_pos (s.getD (if player_idx == 0 then 5 else 11) 0)).2
             + (k0 + 1) * d.2)) &&
      ((s.drop (player_idx * 6)).take 5).contains dest &&
      ((List.range k0).all fun j0 =>
        !(s.contains
          (encode_single_pos
            ((decode_single_pos (s.getD (if player_idx == 0 then 5 else 11) 0)).1
               + (j0 + 1) * d.1,
             (decode_single_pos (s.getD (if player_idx == 0 then 5 else 11) 0)).2
               + (j0 + 1) * d.2))))

end Game

namespace Game

/-! ### Basic facts about the codec and the board predicates -/

/-- C4: `encode_single_pos` and `decode_single_pos` are exact two-sided
inverses over their valid domains: `encode (decode n) = n` for every
`n ∈ [0, 55]`, and `decode (encode (col, row)) = (col, row)` for every
in-bounds coordinate. -/
theorem c4_codec_inverses :
    (∀ n : Int, 0 ≤ n → n ≤ 55 →
      encode_single_pos (decode_single_pos n) = n) ∧
    (∀ col row : Int, 0 ≤ col → col < 7 → 0 ≤ row → row < 8 →
      decode_single_pos (encode_single_pos (col, row)) = (col, row)) := by
  constructor
  · intro n _ _
    simp only [encode_single_pos, decode_single_pos]
    omega
  · intro col row h1 h2 h3 h4
    simp only [encode_single_pos, decode_single_pos, Prod.mk.injEq]
    omega

theorem c4_codec_inverses_witness :
    encode_single_pos (decode_single_pos 10) = 10 ∧
    decode_single_pos (encode_single_pos (3, 1)) = (3, 1) :=
  ⟨c4_codec_inverses.1 10 (by decide) (by decide),
   c4_codec_inverses.2 3 1 (by decide) (by decide) (by decide) (by decide)⟩

/-- C7: the fresh board is exactly `[1,2,3,4,5,3,50,51,52,53,54,52]`, and
`is_valid` rejects it because squares 3 and 52 each carry two pieces. -/
theorem c7_initial_state_invalid :
    initState = [1, 2, 3, 4, 5, 3, 50, 51, 52, 53, 54, 52] ∧
    is_valid initState = false ∧
    initState.count 3 = 2 ∧ initState.count 52 = 2 := by
  decide

/-- C8: `is_termination_state` holds iff the decoded row of piece 5 is 7 or
the decoded row of piece 11 is 0. -/
theorem c8_termination_iff (s : List Int) :
    is_termination_state s = true ↔
      (decode_single_pos (s.getD 5 0)).2 = 7 ∨
      (decode_single_pos (s.getD 11 0)).2 = 0 := by
  unfold is_termination_state
  split
  · next h => simp_all
  · next h =>
    split
    · next h2 => simp_all
    · next h2 => simp_all

/-! ### The ball move generator returns nothing -/

/-- Along any ray, when every element of `slice` also occurs in `s`, the
scan collects nothing: the scan breaks at the first occupied square before
the slice-membership test can ever succeed. -/
theorem ray_scan_eq_nil (s slice : List Int) (hsub : ∀ x ∈ slice, x ∈ s)
    (d : Int × Int) : ∀ (fuel : Nat) (cur : Int × Int),
    ray_scan s slice d cur fuel = [] := by
  intro fuel
  induction fuel with
  | zero => intro cur; rfl
  | succ n ih =>
    intro cur
    unfold ray_scan
    split
    · split
      · rfl
      · next hocc =>
        rw [if_neg fun hmem => hocc (hsub _ hmem)]
        exact ih _
    · rfl

/-- The source `Rules.single_ball_actions` is the empty set on every board. -/
theorem single_ball_actions_eq_nil (s : List Int) (player_idx : Nat) :
    single_ball_actions s player_idx = [] := by
  have hsub : ∀ x ∈ (s.drop (player_idx * 6)).take 6, x ∈ s := fun x hx =>
    List.mem_of_mem_drop (List.mem_of_mem_take hx)
  unfold single_ball_actions
  simp [queen_directions, ray_scan_eq_nil s _ hsub]

/-- C3: for every 12-entry board with squares in `[0, 55]` and each player,
`single_ball_actions` returns the empty set: the ray scan stops at the first
occupied square before the same-color membership test can succeed. -/
theorem c3_ball_actions_always_empty (s : List Int) (hlen : s.length = 12)
    (hdom : ∀ x ∈ s, 0 ≤ x ∧ x ≤ 55) (player_idx : Nat)
    (hp : player_idx = 0 ∨ player_idx = 1) :
    single_ball_actions s player_idx = [] :=
  single_ball_actions_eq_nil s player_idx

theorem c3_ball_actions_always_empty_witness :
    single_ball_actions initState 0 = [] :=
  c3_ball_actions_always_empty initState (by decide) (by decide) 0 (Or.inl rfl)

/-- C1 (spec versus code): from the initial layout, squares 2 and 4 hold
player0 runners one unobstructed step from the carrier at square 3, so the
spec's net rule makes them legal carrier destinations, yet the
implementation returns no carrier move at all. -/
theorem c1_spec_vs_code :
    spec_carrier_dest initState 0 2 = true ∧
    spec_carrier_dest initState 0 4 = true ∧
    single_ball_actions initState 0 = [] := by
  refine ⟨by decide, by decide, single_ball_actions_eq_nil initState 0⟩

/-! ### The runner move generator -/

/-- Membership in `single_piece_actions`: exactly the knight targets that
are on the board, encoded, and unoccupied. -/
theorem mem_single_piece_actions (s : List Int) (piece_idx : Nat) (dest : Int) :
    dest ∈ single_piece_actions s piece_idx ↔
      ∃ m ∈ knight_targets (decode_single_pos (s.getD piece_idx 0)),
        (0 ≤ m.1 ∧ m.1 < 7 ∧ 0 ≤ m.2 ∧ m.2 < 8) ∧
        dest = encode_single_pos m ∧ dest ∉ s := by
  unfold single_piece_actions
  rw [List.mem_filterMap]
  constructor
  · rintro ⟨m, hm, hf⟩
    refine ⟨m, hm, ?_⟩
    by_cases hb : 0 ≤ m.1 ∧ m.1 < 7 ∧ 0 ≤ m.2 ∧ m.2 < 8
    · rw [if_pos hb] at hf
      by_cases hocc : encode_single_pos m ∈ s
      · rw [if_pos hocc] at hf
        cases hf
      · rw [if_neg hocc] at hf
        cases hf
        exact ⟨hb, rfl, hocc⟩
    · rw [if_neg hb] at hf
      cases hf
  · rintro ⟨m, hm, hb, rfl, hocc⟩
    exact ⟨m, hm, by rw [if_pos hb, if_neg hocc]⟩

/-- Every runner destination is an unoccupied square inside `[0, 55]`. -/
theorem single_piece_actions_sound {s : List Int} {piece_idx : Nat} {dest : Int}
    (h : dest ∈ single_piece_actions s piece_idx) :
    dest ∉ s ∧ 0 ≤ dest ∧ dest ≤ 55 := by
  rw [mem_single_piece_actions] at h
  obtain ⟨m, _, hb, rfl, hocc⟩ := h
  refine ⟨hocc, ?_, ?_⟩ <;>
    simp only [encode_single_pos] <;> omega

/-- C5: `single_piece_actions` returns exactly the encodings of the eight
knight-offset coordinates that lie on the 7x8 board and whose square is
unoccupied; in particular no returned destination is an occupied square. -/
theorem c5_piece_actions_exact (s : List Int) (piece_idx : Nat)
    (hlen : s.length = 12) (hidx : piece_idx < 12) :
    (∀ dest : Int,
      dest ∈ single_piece_actions s piece_idx ↔
        ∃ m ∈ knight_targets (decode_single_pos (s.getD piece_idx 0)),
          (0 ≤ m.1 ∧ m.1 < 7 ∧ 0 ≤ m.2 ∧ m.2 < 8) ∧
          dest = encode_single_pos m ∧ dest ∉ s) ∧
    (∀ dest ∈ single_piece_actions s piece_idx, dest ∉ s) :=
  ⟨fun dest => mem_single_piece_actions s piece_idx dest,
   fun _ h => (single_piece_actions_sound h).1⟩

theorem c5_piece_actions_exact_witness : (14 : Int) ∉ initState :=
  (c5_piece_actions_exact initState 0 (by decide) (by decide)).2 14 (by decide)

/-! ### Validity is preserved by engine updates -/

/-- Membership in a fold that appends generated blocks. -/
theorem mem_foldl_append {α β : Type} (g : β → List α) :
    ∀ (l : List β) (init : List α) (x : α),
      (x ∈ l.foldl (fun acc i => acc ++ g i) init) ↔
        x ∈ init ∨ ∃ i ∈ l, x ∈ g i := by
  intro l
  induction l with
  | nil => simp
  | cons b bs ih =>
    intro init x
    rw [List.foldl_cons, ih, List.mem_append]
    simp [or_assoc]

/-- Every action produced by `generate_valid_actions` is a runner action:
a relative index below 5 paired with a legal runner destination (the ball
contributes nothing). -/
theorem mem_generate_valid_actions {s : List Int} {player_idx i : Nat} {d : Int}
    (h : (i, d) ∈ generate_valid_actions s player_idx) :
    i < 5 ∧ d ∈ single_piece_actions s (player_idx * 6 + i) := by
  unfold generate_valid_actions at h
  rw [List.mem_append, mem_foldl_append] at h
  rcases h with (h | h) | h
  · cases h
  · obtain ⟨k, hk, hmem⟩ := h
    rw [List.mem_map] at hmem
    obtain ⟨a, ha, heq⟩ := hmem
    obtain ⟨rfl, rfl⟩ := Prod.mk.injEq .. ▸ heq
    exact ⟨List.mem_range.mp hk, ha⟩
  · rw [single_ball_actions_eq_nil] at h
    simp at h

/-- Setting an entry to a fresh value keeps the list duplicate-free. -/
theorem nodup_set_of_not_mem : ∀ (l : List Int) (n : Nat) (a : Int),
    l.Nodup → a ∉ l → (l.set n a).Nodup := by
  intro l
  induction l with
  | nil => intro n a _ _; simp
  | cons x xs ih =>
    intro n a hnd hna
    rw [List.nodup_cons] at hnd
    cases n with
    | zero =>
      rw [List.set_cons_zero, List.nodup_cons]
      exact ⟨fun hm => hna (List.mem_cons_of_mem _ hm), hnd.2⟩
    | succ m =>
      rw [List.set_cons_succ, List.nodup_cons]
      refine ⟨fun hm => ?_,
        ih m a hnd.2 fun hm => hna (List.mem_cons_of_mem _ hm)⟩
      rcases List.mem_or_eq_of_mem_set hm with hx | hx
      · exact hnd.1 hx
      · subst hx
        exact hna (List.mem_cons_self _ _)

/-- The Boolean `is_valid` unpacked: range bounds plus `Nodup`. -/
theorem is_valid_iff (s : List Int) :
    is_valid s = true ↔ (∀ x ∈ s, 0 ≤ x ∧ x ≤ 55) ∧ s.Nodup := by
  unfold is_valid
  rw [Bool.and_eq_true, List.all_eq_true, beq_iff_eq]
  constructor
  · rintro ⟨h1, h2⟩
    refine ⟨fun x hx => by simpa using h1 x hx, ?_⟩
    have hsub : s.dedup.Sublist s := List.dedup_sublist s
    have hde := hsub.eq_of_length h2
    rw [← hde]
    exact List.nodup_dedup s
  · rintro ⟨h1, h2⟩
    exact ⟨fun x hx => by simpa using h1 x hx,
      by rw [List.dedup_eq_self.mpr h2]⟩

/-- One engine update drawn from the generated action set keeps the board
valid: the destination is a fresh in-range square. -/
theorem update_preserves_valid {s : List Int} {player_idx : Nat}
    {action : Nat × Int} (hv : is_valid s = true)
    (ha : action ∈ generate_valid_actions s player_idx) :
    is_valid (sim_update s action player_idx) = true := by
  obtain ⟨i, d⟩ := action
  obtain ⟨hi5, hd⟩ := mem_generate_valid_actions ha
  obtain ⟨hnot, h0, h55⟩ := single_piece_actions_sound hd
  rw [is_valid_iff] at hv ⊢
  obtain ⟨hrange, hnd⟩ := hv
  unfold sim_update board_update
  constructor
  · intro x hx
    rcases List.mem_or_eq_of_mem_set hx with hx | hx
    · exact hrange x hx
    · subst hx
      exact ⟨h0, h55⟩
  · exact nodup_set_of_not_mem s _ d hnd hnot

/-- Apply a sequence of engine updates `(player_idx, action)` in order. -/
def applyMoves : List Int → List (Nat × (Nat × Int)) → List Int
  | s, [] => s
  | s, (p, a) :: rest => applyMoves (sim_update s a p) rest

/-- A play in which every action is drawn from `generate_valid_actions`
for the mover at the state it is played in. -/
inductive ValidSeq : List Int → List (Nat × (Nat × Int)) → Prop where
  | nil (s : List Int) : ValidSeq s []
  | cons (s : List Int) (p : Nat) (a : Nat × Int)
      (rest : List (Nat × (Nat × Int))) (hp : p < 2)
      (ha : a ∈ generate_valid_actions s p)
      (hrest : ValidSeq (sim_update s a p) rest) :
      ValidSeq s ((p, a) :: rest)

/-- C6: starting from any valid board, any sequence of engine updates whose
actions are drawn from `generate_valid_actions` for the moving player keeps
`is_valid` true: no two pieces ever occupy the same square. -/
theorem c6_engine_preserves_validity (s : List Int)
    (moves : List (Nat × (Nat × Int))) (hseq : ValidSeq s moves)
    (hv : is_valid s = true) :
    is_valid (applyMoves s moves) = true := by
  revert hv
  induction hseq with
  | nil s => intro hv; exact hv
  | cons s p a rest hp ha hrest ih =>
    intro hv
    exact ih (update_preserves_valid hv ha)

def demoStart : List Int := [1, 2, 3, 4, 5, 6, 50, 51, 52, 53, 54, 45]

theorem c6_engine_preserves_validity_witness :
    is_valid (applyMoves demoStart [(0, (0, 14))]) = true :=
  c6_engine_preserves_validity demoStart [(0, (0, 14))]
    (ValidSeq.cons demoStart 0 (0, 14) [] (by decide) (by decide)
      (ValidSeq.nil _))
    (by decide)

/-! ### The simulation loop -/

/-- C2 (spec versus code): from the initial state a proposal outside the
legal action set makes `validate_action` raise `ValueError`, and the
exception escapes `GameSimulator.run`; the forfeiture return naming the
opponent as winner is unreachable, because `validate_action` never returns
`False`. -/
theorem c2_invalid_action_raises :
    runSim badPolicy badPolicy 3 =
      some (RunOutcome.exn ("Invalid action"), [(0, 0)]) ∧
    validate_action initState (0, 0) 0 = Except.error ("Invalid action") :=
  ⟨by decide, rfl⟩

/-- Structure of any completed or in-progress run: the first executed turn
of a non-terminal entry state is `(round + 1, (round + 1) % 2)`; every
executed turn pairs a round with that round's parity as the mover; and a
normal `"No issues"` finish reports the last executed round with the winner
colour given by its parity. -/
theorem runLoop_spec (p0 p1 : Policy) :
    ∀ (fuel : Nat) (s : List Int) (round : Int) (out : RunOutcome)
      (trace : List (Int × Int)),
      runLoop p0 p1 fuel s round = some (out, trace) →
      (is_termination_state s = false →
        trace.head? = some (round + 1, (round + 1) % 2)) ∧
      (∀ e ∈ trace, e.2 = e.1 % 2) ∧
      (∀ R w, out = RunOutcome.finished R w ("No issues") →
        (w = (if R % 2 = 0 then "WHITE" else "BLACK")) ∧
        ((trace = [] ∧ R = round ∧ 0 ≤ round) ∨
          trace.getLast? = some (R, R % 2))) := by
  intro fuel
  induction fuel with
  | zero =>
    intro s round out trace h
    cases h
  | succ n ih =>
    intro s round out trace h
    unfold runLoop at h
    by_cases ht : is_termination_state s = true
    · rw [if_pos ht] at h
      by_cases hr : (0 : Int) ≤ round
      · rw [if_pos hr] at h
        cases h
        refine ⟨fun hf => ?_, fun e he => ?_, fun R w hout => ?_⟩
        · rw [hf] at ht
          exact absurd ht (by simp)
        · cases he
        · injection hout with hR hw
          subst hR
          subst hw
          refine ⟨?_, Or.inl ⟨rfl, rfl, hr⟩⟩
          simp [beq_iff_eq]
      · rw [if_neg hr] at h
        cases h
        refine ⟨fun hf => ?_, fun e he => ?_, fun R w hout => ?_⟩
        · rw [hf] at ht
          exact absurd ht (by simp)
        · cases he
        · cases hout
    · rw [if_neg ht] at h
      split at h
      · cases h
        refine ⟨fun _ => rfl, fun e2 he => ?_, fun R w hout => ?_⟩
        · rcases List.mem_cons.mp he with rfl | he2
          · rfl
          · cases he2
        · cases hout
      · split at h
        · split at h
          · cases h
          · rename_i out2 tr2 hrec
            cases h
            obtain ⟨ih1, ih2, ih3⟩ := ih _ _ _ _ hrec
            refine ⟨fun _ => rfl, fun e he => ?_, fun R w hout => ?_⟩
            · rcases List.mem_cons.mp he with rfl | he2
              · rfl
              · exact ih2 e he2
            · obtain ⟨hw, hdis⟩ := ih3 R w hout
              refine ⟨hw, Or.inr ?_⟩
              rcases hdis with ⟨htr, hR, hr0⟩ | hlast
              · subst htr
                subst hR
                simp
              · cases tr2 with
                | nil => cases hlast
                | cons a tl =>
                  rw [List.getLast?_cons_cons]
                  exact hlast
        · cases h
          refine ⟨fun _ => rfl, fun e he => ?_, fun R w hout => ?_⟩
          · rcases List.mem_cons.mp he with rfl | he2
            · rfl
            · cases he2
          · injection hout with hR hw hreason
            revert hreason
            split
            · intro hreason
              exact absurd hreason (by decide)
            · intro hreason
              exact absurd hreason (by decide)

/-- C9: in `GameSimulator.run` the first executed turn is round 0 with
player 0 moving, the mover on round `r` is `r % 2`, and a loop exit on a
terminal state reports as winner the colour of the player who moved on the
most recent completed round. -/
theorem c9_turn_order_and_winner (p0 p1 : Policy) (fuel : Nat)
    (out : RunOutcome) (trace : List (Int × Int))
    (h : runSim p0 p1 fuel = some (out, trace)) :
    trace.head? = some (0, 0) ∧
    (∀ e ∈ trace, e.2 = e.1 % 2) ∧
    (∀ R w, out = RunOutcome.finished R w ("No issues") →
      trace.getLast? = some (R, R % 2) ∧
      w = (if R % 2 = 0 then "WHITE" else "BLACK")) := by
  obtain ⟨h1, h2, h3⟩ := runLoop_spec p0 p1 fuel initState (-1) out trace h
  refine ⟨?_, h2, ?_⟩
  · have hh := h1 (by decide)
    have h0 : (((-1 : Int) + 1, ((-1 : Int) + 1) % 2) : Int × Int) = (0, 0) := by
      decide
    rw [h0] at hh
    exact hh
  · intro R w hout
    obtain ⟨hw, hdis⟩ := h3 R w hout
    rcases hdis with ⟨htr, hR, hr0⟩ | hlast
    · exact absurd hr0 (by decide)
    · exact ⟨hlast, hw⟩

theorem c9_turn_order_and_winner_witness :
    (([((0 : Int), (0 : Int))] : List (Int × Int)).head? = some (0, 0)) :=
  (c9_turn_order_and_winner badPolicy badPolicy 3
    (RunOutcome.exn ("Invalid action")) [(0, 0)] (by decide)).1

/-- Runs driven by pointwise-equal policies are identical. -/
theorem runLoop_congr (p0 p1 q0 q1 : Policy)
    (h0 : ∀ b, p0 b = q0 b) (h1 : ∀ b, p1 b = q1 b) :
    ∀ (fuel : Nat) (s : List Int) (round : Int),
      runLoop p0 p1 fuel s round = runLoop q0 q1 fuel s round := by
  intro fuel
  induction fuel with
  | zero => intro s round; rfl
  | succ n ih =>
    intro s round
    unfold runLoop
    by_cases ht : is_termination_state s = true
    · rw [if_pos ht, if_pos ht]
    · rw [if_neg ht, if_neg ht]
      have hpol : (if (round + 1) % 2 == 0 then p0 else p1) (make_state s)
          = (if (round + 1) % 2 == 0 then q0 else q1) (make_state s) := by
        split
        · exact h0 _
        · exact h1 _
      rw [hpol, ih]

/-- C10: `GameSimulator.run` is deterministic as a function of its
policies: two runs from the same initial state whose policy calls agree on
equal board snapshots produce identical results (same final round count and
same winner). -/
theorem c10_run_deterministic (p0 p1 q0 q1 : Policy)
    (h0 : ∀ b, p0 b = q0 b) (h1 : ∀ b, p1 b = q1 b) (fuel : Nat) :
    runSim p0 p1 fuel = runSim q0 q1 fuel :=
  runLoop_congr p0 p1 q0 q1 h0 h1 fuel initState (-1)

theorem c10_run_deterministic_witness :
    runSim badPolicy badPolicy 2 = runSim badPolicy badPolicy 2 :=
  c10_run_deterministic badPolicy badPolicy badPolicy badPolicy
    (fun _ => rfl) (fun _ => rfl) 2

end Game
